import Mathlib

/-!
Verification of the time-accounting engine of the `ebb` time tracker.

The definitions below are a shallow embedding of the Rust sources:

* `src/types.rs` — `Frame`, `Frames::filter_by_start_time`,
  `Frames::filter_by_end_time`, `Config`, `WorkingHours`, `DayPortion`,
  `find_allowed_for_year`, the calendar entry types;
* `src/cli/balance.rs` — `resolve_timespan`, `expected_duration`,
  `calculate_weeks_and_days`, `calculate_remaining_days_hours`,
  `get_hours_for_day`, `merge_day_offs_in_range`,
  `insert_or_upgrade_portion`, `portion_order`, `subtract_day_offs`,
  `timestamp_to_local_date`, the frame-clearing step of `run_balance`;
* `src/cli/report.rs` — `total_duration_by_project`;
* `src/cli/days_off.rs` — `filter_by_year`, `count_days`, `normalize_zero`,
  and the taken/remaining arithmetic of `run_daysoff`.

Modelling conventions:

* Unix timestamps (`i64`) are `Int`; `std::time::Duration` is a `Nat`
  counting nanoseconds (`Duration::from_secs s` is `s * NANOS`); Rust
  `Duration - Duration` guarded by `if duration >= subtract` followed by
  the `else` branch setting zero is exactly `Nat` truncated subtraction.
* `chrono::NaiveDate` is an `Int` counting days since 1970-01-01; the
  configured local time zone is modelled as the fixed offset UTC+0, so
  `Local.timestamp_opt(secs).date_naive()` is floor division by 86400.
  DST folds are outside the model (the spec leaves their resolution
  implementation-defined).
* `BTreeMap<K, V>` is a `List (K × V)` whose keys are strictly
  increasing (`List.Pairwise` on the keys); `HashMap<K, V>` is a
  `List (K × V)` in unspecified order; `f32` is `ℚ` (the day-off
  arithmetic only produces half-integers, on which `f32` is exact).
* Rust `i64` division/remainder truncate toward zero: `Int.tdiv` and
  `Int.tmod`.  The `as u32` cast takes the low 32 bits: `· % 2 ^ 32`.
-/

namespace Ebb

/-- Nanoseconds per second; `std::time::Duration` is counted in these. -/
def NANOS : Nat := 1000000000

/-- `Duration::from_secs` (src/types.rs uses it to build working hours). -/
def fromSecs (s : Nat) : Nat := s * NANOS

/-- `Duration::as_secs`, truncating (src/cli/balance.rs line 180). -/
def as_secs (d : Nat) : Nat := d / NANOS

/-- src/types.rs `DayPortion`. -/
inductive DayPortion where
  | Full : DayPortion
  | Half : DayPortion
deriving DecidableEq, Repr

/-- src/cli/balance.rs `portion_order`. -/
def portion_order (portion : DayPortion) : Nat :=
  match portion with
  | DayPortion.Full => 2
  | DayPortion.Half => 1

/-- src/types.rs `HolidayEntry` / `SickDayEntry` / `VacationEntry`: the three
Rust structs have identical shape `{description, portion}`. -/
structure CalendarEntry where
  description : String
  portion : DayPortion
deriving DecidableEq, Repr

/-- A calendar (`Holidays` / `SickDays` / `Vacations` in src/types.rs):
a `BTreeMap<NaiveDate, …Entry>` modelled as an association list; the
`BTreeMap` invariant (strictly increasing keys) is carried as a
`List.Pairwise` hypothesis where a theorem needs it. -/
abbrev Calendar : Type := List (Int × CalendarEntry)

/-- src/types.rs `WorkingHours`: seven `std::time::Duration`s (here: ns). -/
structure WorkingHours where
  monday : Nat
  tuesday : Nat
  wednesday : Nat
  thursday : Nat
  friday : Nat
  saturday : Nat
  sunday : Nat
deriving DecidableEq, Repr

/-- src/types.rs `WorkingHours::total_weekly_duration`. -/
def WorkingHours.total_weekly_duration (wh : WorkingHours) : Nat :=
  wh.monday + wh.tuesday + wh.wednesday + wh.thursday + wh.friday +
    wh.saturday + wh.sunday

/-- src/types.rs `default_working_hours`: 8 h Monday–Friday, 0 at weekends. -/
def default_working_hours : WorkingHours :=
  { monday := fromSecs (60 * 60 * 8)
    tuesday := fromSecs (60 * 60 * 8)
    wednesday := fromSecs (60 * 60 * 8)
    thursday := fromSecs (60 * 60 * 8)
    friday := fromSecs (60 * 60 * 8)
    saturday := fromSecs 0
    sunday := fromSecs 0 }

/-- src/types.rs `Config` (the fields the engine reads). -/
structure Config where
  vacation_days_per_year : List (Int × Int)
  sick_days_per_year : List (Int × Int)
  working_hours : WorkingHours

/-- src/types.rs `find_allowed_for_year`: filter the sparse year table to
keys `≤ year`, take the entry with the largest key (Rust
`Iterator::max_by_key` keeps the later of two equal keys), return its
value, defaulting to 0.  `max_by_key` is modelled by `maxByFromYear`. -/
def maxByFromYear : List (Int × Int) → Option (Int × Int)
  | [] => none
  | e :: rest =>
    match maxByFromYear rest with
    | none => some e
    | some m => if e.1 > m.1 then some e else some m

/-- src/types.rs `find_allowed_for_year`. -/
def find_allowed_for_year (map : List (Int × Int)) (year : Int) : Int :=
  match maxByFromYear (map.filter (fun e => decide (e.1 ≤ year))) with
  | some e => e.2
  | none => 0

/-- src/types.rs `Config::allowed_vacation_days`. -/
def Config.allowed_vacation_days (c : Config) (year : Int) : Int :=
  find_allowed_for_year c.vacation_days_per_year year

/-- src/types.rs `Config::allowed_sick_days`. -/
def Config.allowed_sick_days (c : Config) (year : Int) : Int :=
  find_allowed_for_year c.sick_days_per_year year

/-- The default `Config` (src/types.rs `default_vacation_days_per_year`,
`default_sick_days_per_year`, `default_working_hours`). -/
def default_config : Config :=
  { vacation_days_per_year := [(2000, 30)]
    sick_days_per_year := [(2000, 30)]
    working_hours := default_working_hours }

/-- src/types.rs `Frame`. -/
structure Frame where
  start_time : Int
  end_time : Int
  project : String
  tags : List String
  updated_at : Int
deriving DecidableEq, Repr

/-- src/types.rs `Timespan` (`from` is a Lean keyword, hence `from_`). -/
structure Timespan where
  from_ : Int
  to_ : Int
deriving DecidableEq, Repr

/-- src/types.rs `Frames::filter_by_start_time` (`retain_mut`): a frame
straddling `from` is kept with its start clipped to `from`; otherwise it
is kept exactly when it starts at or after `from`. -/
def filter_by_start_time (a : Int) (frames : List Frame) : List Frame :=
  frames.filterMap fun frame =>
    if frame.start_time < a ∧ frame.end_time > a then
      some { frame with start_time := a }
    else if frame.start_time ≥ a then some frame
    else none

/-- src/types.rs `Frames::filter_by_end_time` (`retain_mut`): a frame
straddling `to` is kept with its end clipped to `to`; otherwise it is
kept exactly when it ends at or before `to`. -/
def filter_by_end_time (b : Int) (frames : List Frame) : List Frame :=
  frames.filterMap fun frame =>
    if frame.start_time < b ∧ frame.end_time > b then
      some { frame with end_time := b }
    else if frame.end_time ≤ b then some frame
    else none

/-- The two clipping passes in the order `run_balance` / `run_report`
apply them (src/cli/balance.rs lines 83-85, src/cli/report.rs lines
90-91): start-time filtering first, then end-time filtering. -/
def filter_frames (a b : Int) (frames : List Frame) : List Frame :=
  filter_by_end_time b (filter_by_start_time a frames)

/-- src/cli/balance.rs `run_balance` lines 80-86: with `from > to` the
frame list is cleared without filtering, otherwise both clipping passes
run. -/
def run_balance_frames (ts : Timespan) (frames : List Frame) : List Frame :=
  if ts.from_ > ts.to_ then [] else filter_frames ts.from_ ts.to_ frames

/-- src/cli/balance.rs `resolve_timespan` / src/cli/report.rs
`resolve_timespan`, restricted to the branch where none of the
`--day`/`--week`/`--month`/`--year` selectors is set (the four
local-midnight selector branches are not modelled; no claim depends on
them): `from` is the explicit `--from` timestamp if given, otherwise the
start time of the *first* frame of the list (`frames.first()`),
otherwise 0; `to` is the explicit `--to` timestamp if given, otherwise
`now`. -/
def resolve_timespan (argFrom argTo : Option Int) (now : Int)
    (frames : List Frame) : Timespan :=
  { from_ := ((argFrom.orElse
        fun _ => (frames.head?.map Frame.start_time)).getD 0)
    to_ := argTo.getD now }

/-- src/cli/balance.rs `timestamp_to_local_date`
(`Local.timestamp_opt(secs, 0).unwrap().date_naive()`): with the local
zone modelled as UTC+0 this is the floor of `secs / 86400`, counted in
days since 1970-01-01. -/
def timestamp_to_local_date (secs : Int) : Int := secs.fdiv 86400

/-- `chrono::Datelike::weekday` as `num_days_from_monday`: day 0
(1970-01-01) was a Thursday, so day `d` has weekday `(d + 3) mod 7`
with 0 = Monday … 6 = Sunday. -/
def weekdayOf (day : Int) : Nat := ((day + 3).emod 7).toNat

/-- src/cli/balance.rs `get_hours_for_day`: select the weekday's
template duration. -/
def get_hours_for_day (date : Int) (working_hours : WorkingHours) : Nat :=
  let w := weekdayOf date
  if w = 0 then working_hours.monday
  else if w = 1 then working_hours.tuesday
  else if w = 2 then working_hours.wednesday
  else if w = 3 then working_hours.thursday
  else if w = 4 then working_hours.friday
  else if w = 5 then working_hours.saturday
  else working_hours.sunday

/-- src/cli/balance.rs `calculate_weeks_and_days`:
`days_diff = (to_date - from_date).num_days() + 1`, split into full
weeks and remaining days.  Rust `i64` `/` and `%` truncate toward zero,
hence `Int.tdiv` / `Int.tmod`. -/
def calculate_weeks_and_days (ts : Timespan) : Int × Int :=
  let from_date := timestamp_to_local_date ts.from_
  let to_date := timestamp_to_local_date ts.to_
  let days_diff := (to_date - from_date) + 1
  (days_diff.tdiv 7, days_diff.tmod 7)

/-- src/cli/balance.rs `calculate_remaining_days_hours`: sum the
template duration of the `remaining_days` consecutive dates ending at
`end_date` (the loop runs ascending from
`end_date - (remaining_days - 1)`).  Rust's `0..remaining_days` range is
empty for non-positive `remaining_days`, which `Int.toNat` mirrors. -/
def calculate_remaining_days_hours (remaining_days : Int) (end_date : Int)
    (working_days : WorkingHours) : Nat :=
  if remaining_days = 0 then 0
  else
    let start_date := end_date - (remaining_days - 1)
    ((List.range remaining_days.toNat).map
      fun (offset : Nat) =>
        get_hours_for_day (start_date + (offset : Int)) working_days).sum

/-- The upgrade rule of src/cli/balance.rs `insert_or_upgrade_portion`:
keep the existing portion `q` unless the new portion `p` has strictly
higher severity. -/
def upgradePortion (q p : DayPortion) : DayPortion :=
  if portion_order p > portion_order q then p else q

/-- src/cli/balance.rs `insert_or_upgrade_portion`
(`map.entry(date).and_modify(upgrade).or_insert(portion)` on a
`BTreeMap`): insertion into a key-sorted association list, keeping the
higher-severity portion when the date is already present. -/
def insert_or_upgrade_portion :
    List (Int × DayPortion) → Int → DayPortion → List (Int × DayPortion)
  | [], date, portion => [(date, portion)]
  | (d, q) :: rest, date, portion =>
    if date < d then (date, portion) :: (d, q) :: rest
    else if date = d then (d, upgradePortion q portion) :: rest
    else (d, q) :: insert_or_upgrade_portion rest date portion

/-- `BTreeMap::get` on the merged portion map. -/
def lookupDate : List (Int × DayPortion) → Int → Option DayPortion
  | [], _ => none
  | (d, p) :: rest, x => if x = d then some p else lookupDate rest x

/-- `BTreeMap::get` on a calendar, projected to the portion. -/
def calendarPortion : Calendar → Int → Option DayPortion
  | [], _ => none
  | (d, e) :: rest, x => if x = d then some e.portion else calendarPortion rest x

/-- Combine an accumulated optional portion with a newly merged one,
keeping the higher severity (the effect of one `insert_or_upgrade_portion`
call on one date). -/
def omaxPortion : Option DayPortion → Option DayPortion → Option DayPortion
  | o, none => o
  | none, some p => some p
  | some q, some p => some (upgradePortion q p)

/-- The `BTreeMap` key invariant: strictly increasing keys. -/
def keysSorted {β : Type} (l : List (Int × β)) : Prop :=
  List.Pairwise (fun x y => x.1 < y.1) l

instance {β : Type} (l : List (Int × β)) : Decidable (keysSorted l) :=
  inferInstanceAs (Decidable (List.Pairwise _ l))

/-- `BTreeMap::range(start_date..=end_date)` on a calendar: the entries
whose date lies in the inclusive range.  (Rust's `range` panics when
`start > end`; every use in this development has `start ≤ end`.) -/
def calendarRange (cal : Calendar) (start_date end_date : Int) : Calendar :=
  cal.filter fun e => decide (start_date ≤ e.1 ∧ e.1 ≤ end_date)

/-- One of the three `for` loops of `merge_day_offs_in_range`: fold the
in-range entries of one calendar into the combined map. -/
def mergeCalendar (combined : List (Int × DayPortion)) (cal : Calendar)
    (start_date end_date : Int) : List (Int × DayPortion) :=
  (calendarRange cal start_date end_date).foldl
    (fun m e => insert_or_upgrade_portion m e.1 e.2.portion) combined

/-- src/cli/balance.rs `merge_day_offs_in_range`: vacations, then
holidays, then sick days are folded into one per-date portion map. -/
def merge_day_offs_in_range (vacations holidays sick_days : Calendar)
    (start_date end_date : Int) : List (Int × DayPortion) :=
  mergeCalendar
    (mergeCalendar
      (mergeCalendar [] vacations start_date end_date)
      holidays start_date end_date)
    sick_days start_date end_date

/-- The amount one merged day off subtracts (src/cli/balance.rs
`subtract_day_offs` loop body): the weekday's template duration, halved
for a `Half` portion (`Duration / 2`, i.e. truncating ns division). -/
def day_off_subtrahend (working_hours : WorkingHours)
    (e : Int × DayPortion) : Nat :=
  let daily_duration := get_hours_for_day e.1 working_hours
  match e.2 with
  | DayPortion.Full => daily_duration
  | DayPortion.Half => daily_duration / 2

/-- src/cli/balance.rs `subtract_day_offs`: subtract each merged day
off in turn; the source's `if duration >= subtract { duration -=
subtract } else { duration = Duration::ZERO }` is `Nat` truncated
subtraction. -/
def subtract_day_offs (duration : Nat)
    (day_offs : List (Int × DayPortion)) (config : Config) : Nat :=
  day_offs.foldl
    (fun dur e => dur - day_off_subtrahend config.working_hours e) duration

/-- The pre-day-off total of src/cli/balance.rs `expected_duration`
(lines 166-177): full weeks times the weekly template total — the
`checked_mul(full_weeks as u32)` cast takes the low 32 bits — plus the
trailing partial week. -/
def expected_base_ns (config : Config) (ts : Timespan) : Nat :=
  let end_date := timestamp_to_local_date ts.to_
  let fw_rd := calculate_weeks_and_days ts
  let working_duration_per_week := config.working_hours.total_weekly_duration
  let full_week_duration :=
    working_duration_per_week * (fw_rd.1.emod (2 ^ 32)).toNat
  let remaining_days_duration :=
    calculate_remaining_days_hours fw_rd.2 end_date config.working_hours
  full_week_duration + remaining_days_duration

/-- src/cli/balance.rs `expected_duration`. -/
def expected_duration (config : Config) (ts : Timespan)
    (holidays sick_days vacations : Calendar) : Nat :=
  let start_date := timestamp_to_local_date ts.from_
  let end_date := timestamp_to_local_date ts.to_
  let day_offs :=
    merge_day_offs_in_range vacations holidays sick_days start_date end_date
  as_secs (subtract_day_offs (expected_base_ns config ts) day_offs config)

/-- src/cli/balance.rs `total_duration`: the actual worked seconds of a
frame list. -/
def total_duration (frames : List Frame) : Int :=
  frames.foldl (fun t f => t + (f.end_time - f.start_time)) 0

/-- `chrono::Datelike::year` of a `NaiveDate`: the proleptic-Gregorian
year of epoch day `z`, by the standard civil-from-days conversion. -/
def yearOfDay (z : Int) : Int :=
  let zs := z + 719468
  let era := zs.fdiv 146097
  let doe := (zs - era * 146097).toNat
  let yoe := (doe - doe / 1460 + doe / 36524 - doe / 146096) / 365
  let y := (yoe : Int) + era * 400
  let doy := doe - (365 * yoe + yoe / 4 - yoe / 100)
  let mp := (5 * doy + 2) / 153
  let m := if mp < 10 then mp + 3 else mp - 9
  if m ≤ 2 then y + 1 else y

/-- src/cli/days_off.rs `filter_by_year`
(`map.retain(|date, _| date.year() == year)`). -/
def filter_by_year (map : Calendar) (year : Int) : Calendar :=
  map.filter fun e => decide (yearOfDay e.1 = year)

/-- The weight of one day-off portion in src/cli/days_off.rs
`count_days` (f32 modelled as ℚ). -/
def portionWeight (portion : DayPortion) : ℚ :=
  match portion with
  | DayPortion.Full => 1
  | DayPortion.Half => 1 / 2

/-- src/cli/days_off.rs `count_days`: sum of portion weights. -/
def count_days (portions : List DayPortion) : ℚ :=
  (portions.map portionWeight).sum

/-- src/cli/days_off.rs `normalize_zero`
(`if x == 0.0 { 0.0 } else { x }`; on floats this turns an exact
negative zero into positive zero — on ℚ it maps the unique zero to
itself). -/
def normalize_zero (x : ℚ) : ℚ := if x = 0 then 0 else x

/-- src/cli/days_off.rs `run_daysoff` lines 71-76: days taken in a
year, from one calendar. -/
def days_off_taken (cal : Calendar) (year : Int) : ℚ :=
  count_days ((filter_by_year cal year).map fun e => e.2.portion)

/-- src/cli/days_off.rs `run_daysoff` lines 79-81: remaining =
`normalize_zero(allowed as f32 - taken)`. -/
def days_off_remaining (allowed : Int) (taken : ℚ) : ℚ :=
  normalize_zero ((allowed : ℚ) - taken)

/-- The duration of one frame, `end_time - start_time` (the `duration`
local of src/cli/report.rs `total_duration_by_project` and
src/cli/balance.rs `total_duration`). -/
def frameDuration (f : Frame) : Int := f.end_time - f.start_time

/-- One step of `total_duration_by_project`, processing a single
frame. -/
def tdbpStep (acc : (String → Int) × Int) (frame : Frame) :
    (String → Int) × Int :=
  (fun p =>
    if p = frame.project then acc.1 p + frameDuration frame
    else acc.1 p,
    acc.2 + frameDuration frame)

/-- src/cli/report.rs `total_duration_by_project` (the revision under
src, which aggregates per project only): the
`HashMap<String, ProjectDuration>` is modelled as a total function that
is 0 away from the inserted keys (`or_insert(ProjectDuration { duration:
0 })` followed by `+= duration`). -/
def total_duration_by_project (frames : List Frame) :
    (String → Int) × Int :=
  frames.foldl tdbpStep (fun _ => 0, 0)

/-- The aggregation result: grand total, per-project totals, and
per-project per-tag totals. -/
structure Agg where
  total : Int
  projDur : String → Int
  tagDur : String → String → Int

/-- One step of `aggregate`, processing a single frame. -/
def aggStep (acc : Agg) (frame : Frame) : Agg :=
  { total := acc.total + frameDuration frame
    projDur := fun p =>
      if p = frame.project then acc.projDur p + frameDuration frame
      else acc.projDur p
    tagDur :=
      frame.tags.foldl
        (fun m tg => fun p t =>
          if p = frame.project ∧ t = tg then m p t + frameDuration frame
          else m p t)
        acc.tagDur }

/-- Modelled from the spec: the aggregator of the report command
(spec §4.4) including the per-tag totals.  The revision of
src/cli/report.rs whose `ProjectDuration` carries a `tags` map is not
under src — only tests/report.rs exercises it — so the tag part follows
the spec's words: "for each frame: duration = end_time − start_time; add
to grand total; add to the named project's running total; for each of
the frame's tags, add to that project's per-tag running total."  The
total and per-project parts coincide with `total_duration_by_project`
above. -/
def aggregate (frames : List Frame) : Agg :=
  frames.foldl aggStep ⟨0, fun _ => 0, fun _ _ => 0⟩

/-- The three frames of the aggregation example in spec §8:
(project=A, tags=[x,y], 1h), (project=B, tags=[z], 2h),
(project=A, tags=[y], 3h). -/
def exampleFrames : List Frame :=
  [{ start_time := 0, end_time := 3600, project := "A", tags := ["x", "y"],
     updated_at := 0 },
   { start_time := 0, end_time := 7200, project := "B", tags := ["z"],
     updated_at := 0 },
   { start_time := 0, end_time := 10800, project := "A", tags := ["y"],
     updated_at := 0 }]

end Ebb

namespace Ebb

/-! ## Frame filtering: helper lemmas -/

theorem filterMap_id_of_forall_some {α : Type} (fn : α → Option α)
    (l : List α) (h : ∀ x ∈ l, fn x = some x) : l.filterMap fn = l := by
  induction l with
  | nil => rfl
  | cons x xs ih =>
    rw [List.filterMap_cons, h x (List.mem_cons_self x xs),
      ih fun y hy => h y (List.mem_cons_of_mem x hy)]

theorem mem_filter_by_start_time {a : Int} {l : List Frame} {g : Frame}
    (hg : g ∈ filter_by_start_time a l) :
    ∃ f ∈ l, g.start_time = max f.start_time a ∧ g.end_time = f.end_time ∧
      g.project = f.project ∧ g.tags = f.tags ∧
      g.updated_at = f.updated_at ∧ (a < f.end_time ∨ a ≤ f.start_time) := by
  rw [filter_by_start_time, List.mem_filterMap] at hg
  obtain ⟨f, hf, hfg⟩ := hg
  refine ⟨f, hf, ?_⟩
  split_ifs at hfg with h1 h2
  · injection hfg with h
    subst h
    exact ⟨(max_eq_right h1.1.le).symm, rfl, rfl, rfl, rfl, Or.inl h1.2⟩
  · injection hfg with h
    subst h
    exact ⟨(max_eq_left h2).symm, rfl, rfl, rfl, rfl, Or.inr h2⟩

theorem mem_filter_by_end_time {b : Int} {l : List Frame} {g : Frame}
    (hg : g ∈ filter_by_end_time b l) :
    ∃ f ∈ l, g.start_time = f.start_time ∧ g.end_time = min f.end_time b ∧
      g.project = f.project ∧ g.tags = f.tags ∧
      g.updated_at = f.updated_at ∧ (f.start_time < b ∨ f.end_time ≤ b) := by
  rw [filter_by_end_time, List.mem_filterMap] at hg
  obtain ⟨f, hf, hfg⟩ := hg
  refine ⟨f, hf, ?_⟩
  split_ifs at hfg with h1 h2
  · injection hfg with h
    subst h
    exact ⟨rfl, (min_eq_right h1.2.le).symm, rfl, rfl, rfl, Or.inl h1.1⟩
  · injection hfg with h
    subst h
    exact ⟨rfl, (min_eq_left h2).symm, rfl, rfl, rfl, Or.inr h2⟩

theorem filter_by_start_time_of_forall_ge (a : Int) (l : List Frame)
    (h : ∀ f ∈ l, a ≤ f.start_time) : filter_by_start_time a l = l := by
  refine filterMap_id_of_forall_some _ _ fun f hf => ?_
  have := h f hf
  rw [if_neg (by omega), if_pos (by omega)]

theorem filter_by_end_time_of_forall_le (b : Int) (l : List Frame)
    (h : ∀ f ∈ l, f.end_time ≤ b) : filter_by_end_time b l = l := by
  refine filterMap_id_of_forall_some _ _ fun f hf => ?_
  have := h f hf
  rw [if_neg (by omega), if_pos (by omega)]

theorem filter_frames_bounds {a b : Int} {l : List Frame} {g : Frame}
    (hg : g ∈ filter_frames a b l) :
    a ≤ g.start_time ∧ g.end_time ≤ b := by
  obtain ⟨m, hm, hs, he, -⟩ := mem_filter_by_end_time hg
  obtain ⟨f, hf, hs', -⟩ := mem_filter_by_start_time hm
  constructor
  · rw [hs, hs']
    exact le_max_right _ _
  · rw [he]
    exact min_le_right _ _

theorem filter_by_start_time_nil (a : Int) : filter_by_start_time a [] = [] :=
  rfl

theorem filter_by_end_time_nil (b : Int) : filter_by_end_time b [] = [] :=
  rfl

theorem filter_by_start_time_cons_clip {a : Int} {f : Frame} (l : List Frame)
    (h1 : f.start_time < a) (h2 : a < f.end_time) :
    filter_by_start_time a (f :: l) =
      { f with start_time := a } :: filter_by_start_time a l := by
  simp only [filter_by_start_time, List.filterMap_cons]
  rw [if_pos ⟨h1, h2⟩]

theorem filter_by_start_time_cons_keep {a : Int} {f : Frame} (l : List Frame)
    (h1 : a ≤ f.start_time) :
    filter_by_start_time a (f :: l) = f :: filter_by_start_time a l := by
  simp only [filter_by_start_time, List.filterMap_cons]
  rw [if_neg (by omega), if_pos (by omega)]

theorem filter_by_start_time_cons_drop {a : Int} {f : Frame} (l : List Frame)
    (h1 : f.start_time < a) (h2 : f.end_time ≤ a) :
    filter_by_start_time a (f :: l) = filter_by_start_time a l := by
  simp only [filter_by_start_time, List.filterMap_cons]
  rw [if_neg (by omega), if_neg (by omega)]

theorem filter_by_end_time_cons_clip {b : Int} {f : Frame} (l : List Frame)
    (h1 : f.start_time < b) (h2 : b < f.end_time) :
    filter_by_end_time b (f :: l) =
      { f with end_time := b } :: filter_by_end_time b l := by
  simp only [filter_by_end_time, List.filterMap_cons]
  rw [if_pos ⟨h1, h2⟩]

theorem filter_by_end_time_cons_keep {b : Int} {f : Frame} (l : List Frame)
    (h1 : f.end_time ≤ b) :
    filter_by_end_time b (f :: l) = f :: filter_by_end_time b l := by
  simp only [filter_by_end_time, List.filterMap_cons]
  rw [if_neg (by omega), if_pos (by omega)]

theorem filter_by_end_time_cons_drop {b : Int} {f : Frame} (l : List Frame)
    (h1 : b ≤ f.start_time) (h2 : b < f.end_time) :
    filter_by_end_time b (f :: l) = filter_by_end_time b l := by
  simp only [filter_by_end_time, List.filterMap_cons]
  rw [if_neg (by omega), if_neg (by omega)]

/-! ## C6: filtering is idempotent -/

/-- C6: filtering is idempotent — for every period with `from ≤ to` and
every frame list, applying the start-time and end-time filtering passes
to a list that already resulted from filtering with the same period
returns the identical list. -/
theorem filter_frames_idempotent (a b : Int) (h : a ≤ b) (fs : List Frame) :
    filter_frames a b (filter_frames a b fs) = filter_frames a b fs := by
  have h1 : ∀ g ∈ filter_frames a b fs, a ≤ g.start_time ∧ g.end_time ≤ b :=
    fun g hg => filter_frames_bounds hg
  rw [filter_frames,
    filter_by_start_time_of_forall_ge a _ fun g hg => (h1 g hg).1,
    filter_by_end_time_of_forall_le b _ fun g hg => (h1 g hg).2]

/-- Witness for C6 at the period `[0, 10]` and a frame spanning it. -/
theorem filter_frames_idempotent_witness :
    (0 : Int) ≤ 10 ∧
    filter_frames 0 10 (filter_frames 0 10
      [{ start_time := -5, end_time := 20, project := "p", tags := ["t"],
         updated_at := 1 }]) =
      filter_frames 0 10
        [{ start_time := -5, end_time := 20, project := "p", tags := ["t"],
           updated_at := 1 }] :=
  ⟨by decide, filter_frames_idempotent 0 10 (by decide) _⟩

/-! ## C10: invariant of the filtered output -/

/-- C10: for every period with `from ≤ to` and every input frame list of
well-formed frames (`start_time ≤ end_time`), every frame output by the
start-time pass followed by the end-time pass satisfies
`from ≤ start_time ≤ end_time ≤ to`, and its project, tags, and
updated_at fields are identical to those of the input frame it came
from. -/
theorem filter_frames_invariant (a b : Int) (fs : List Frame)
    (hab : a ≤ b) (hwf : ∀ f ∈ fs, f.start_time ≤ f.end_time) :
    ∀ g ∈ filter_frames a b fs,
      a ≤ g.start_time ∧ g.start_time ≤ g.end_time ∧ g.end_time ≤ b ∧
      ∃ f ∈ fs, g.project = f.project ∧ g.tags = f.tags ∧
        g.updated_at = f.updated_at := by
  intro g hg
  obtain ⟨m, hm, hs, he, hp, ht, hu, hsur2⟩ := mem_filter_by_end_time hg
  obtain ⟨f, hf, hs', he', hp', ht', hu', hsur1⟩ := mem_filter_by_start_time hm
  have hwff := hwf f hf
  have e1 : g.start_time = max f.start_time a := by rw [hs, hs']
  have e2 : g.end_time = min f.end_time b := by rw [he, he']
  have hsb : max f.start_time a < b ∨ f.end_time ≤ b := by
    rw [← hs', ← he']
    exact hsur2
  have hafe : a ≤ f.end_time := by
    rcases hsur1 with h | h
    · exact h.le
    · exact le_trans h hwff
  have hfsb : f.start_time ≤ b := by
    rcases hsb with h | h
    · exact le_trans (le_max_left _ _) h.le
    · exact le_trans hwff h
  refine ⟨?_, ?_, ?_, f, hf, by rw [hp, hp'], by rw [ht, ht'],
    by rw [hu, hu']⟩
  · rw [e1]
    exact le_max_right _ _
  · rw [e1, e2]
    exact max_le (le_min hwff hfsb) (le_min hafe hab)
  · rw [e2]
    exact min_le_right _ _

/-- Witness for C10: period `[5, 10]`, one frame `[0, 7]` that gets its
start clipped. -/
theorem filter_frames_invariant_witness :
    ((5 : Int) ≤ 10 ∧
      (∀ f ∈ [({ start_time := 0, end_time := 7, project := "p",
                 tags := ["t"], updated_at := 3 } : Frame)],
        f.start_time ≤ f.end_time)) ∧
    ∀ g ∈ filter_frames 5 10
        [({ start_time := 0, end_time := 7, project := "p", tags := ["t"],
            updated_at := 3 } : Frame)],
      5 ≤ g.start_time ∧ g.start_time ≤ g.end_time ∧ g.end_time ≤ 10 ∧
      ∃ f ∈ [({ start_time := 0, end_time := 7, project := "p",
                tags := ["t"], updated_at := 3 } : Frame)],
        g.project = f.project ∧ g.tags = f.tags ∧
        g.updated_at = f.updated_at :=
  ⟨⟨by decide, by decide⟩,
    filter_frames_invariant 5 10 _ (by decide) (by decide)⟩

/-! ## C5: the clipping case analysis -/

/-- C5 counterexample: the claim declares a frame "fully outside —
dropped" already when `t1 ≤ from`, but the zero-length frame
`[from, from]` (here `[0, 0]` against the period `[0, 10]`) is kept
unchanged by the two filtering passes, not dropped. -/
theorem filter_frames_clipping_cases_cex :
    ((0 : Int) ≤ 10 ∧
      ({ start_time := 0, end_time := 0, project := "p", tags := [],
         updated_at := 0 } : Frame).start_time ≤ 0 ∧
      ({ start_time := 0, end_time := 0, project := "p", tags := [],
         updated_at := 0 } : Frame).end_time ≤ 0) ∧
    filter_frames 0 10
      [{ start_time := 0, end_time := 0, project := "p", tags := [],
         updated_at := 0 }] ≠ [] := by
  decide

/-- C5 (amended): for every period with `from ≤ to` and every frame
`[t0, t1]` with `t0 ≤ t1`: if `t0 < from < t1 ≤ to` the frame becomes
`[from, t1]`; if `from ≤ t0 < to < t1` it becomes `[t0, to]`; if it lies
fully inside `[from, to]` it is unchanged; it is dropped exactly when it
lies fully outside with a nonzero part strictly beyond the boundary —
entirely before `from` with `t0 < from`, or entirely after `to` with
`t1 > to`.  (The degenerate frames `[from, from]` and `[to, to]` fall
under "fully inside" and are kept unchanged.) -/
theorem filter_frames_clipping_cases (a b t0 t1 : Int) (p : String)
    (tg : List String) (u : Int) (hab : a ≤ b) (hwf : t0 ≤ t1) :
    (t0 < a → a < t1 → t1 ≤ b →
      filter_frames a b [⟨t0, t1, p, tg, u⟩] = [⟨a, t1, p, tg, u⟩]) ∧
    (a ≤ t0 → t0 < b → b < t1 →
      filter_frames a b [⟨t0, t1, p, tg, u⟩] = [⟨t0, b, p, tg, u⟩]) ∧
    (a ≤ t0 → t1 ≤ b →
      filter_frames a b [⟨t0, t1, p, tg, u⟩] = [⟨t0, t1, p, tg, u⟩]) ∧
    ((t1 ≤ a ∧ t0 < a) ∨ (b ≤ t0 ∧ b < t1) →
      filter_frames a b [⟨t0, t1, p, tg, u⟩] = []) := by
  refine ⟨?_, ?_, ?_, ?_⟩
  · intro h1 h2 h3
    rw [filter_frames, filter_by_start_time_cons_clip _ h1 h2,
      filter_by_start_time_nil, filter_by_end_time_cons_keep _ h3,
      filter_by_end_time_nil]
  · intro h1 h2 h3
    rw [filter_frames, filter_by_start_time_cons_keep _ h1,
      filter_by_start_time_nil, filter_by_end_time_cons_clip _ h2 h3,
      filter_by_end_time_nil]
  · intro h1 h2
    rw [filter_frames, filter_by_start_time_cons_keep _ h1,
      filter_by_start_time_nil, filter_by_end_time_cons_keep _ h2,
      filter_by_end_time_nil]
  · rintro (⟨h1, h2⟩ | ⟨h1, h2⟩)
    · rw [filter_frames, filter_by_start_time_cons_drop _ h2 h1,
        filter_by_start_time_nil, filter_by_end_time_nil]
    · rw [filter_frames, filter_by_start_time_cons_keep _ (le_trans hab h1),
        filter_by_start_time_nil, filter_by_end_time_cons_drop _ h1 h2,
        filter_by_end_time_nil]

/-- Witness for C5 (amended) at the period `[0, 10]` and the frame
`[-5, 3]`, which exercises the start-clipping case. -/
theorem filter_frames_clipping_cases_witness :
    ((0 : Int) ≤ 10 ∧ (-5 : Int) ≤ 3) ∧
    ((-5 : Int) < 0 → (0 : Int) < 3 → (3 : Int) ≤ 10 →
      filter_frames 0 10 [⟨-5, 3, "p", ["t"], 7⟩] =
        [⟨0, 3, "p", ["t"], 7⟩]) :=
  ⟨⟨by decide, by decide⟩,
    (filter_frames_clipping_cases 0 10 (-5) 3 "p" ["t"] 7 (by decide)
      (by decide)).1⟩

/-! ## C7: the no-selector branch of the period resolver -/

/-- C7 counterexample: with no selector and no explicit `from`, the
resolver takes `frames.first()` — the first frame of the list — not the
earliest.  On the unordered list `[start=100, start=50]` the earliest
start is 50, but the resolved `from` is not 50 (it is 100). -/
theorem resolve_timespan_earliest_cex :
    (([({ start_time := 100, end_time := 200, project := "a", tags := [],
          updated_at := 0 } : Frame),
       { start_time := 50, end_time := 60, project := "b", tags := [],
         updated_at := 0 }].map Frame.start_time).min? = some 50) ∧
    (resolve_timespan none none 1000
      [{ start_time := 100, end_time := 200, project := "a", tags := [],
         updated_at := 0 },
       { start_time := 50, end_time := 60, project := "b", tags := [],
         updated_at := 0 }]).from_ ≠ 50 := by
  decide

/-- C7 (amended): when no day/week/month/year selector is given, the
resolved period has `from` = the explicit from if given, else the start
time of the *first* frame of the list (which is the earliest frame only
when the list is chronologically ordered), else epoch 0; and `to` = the
explicit to if given, else `now` — for every frame list. -/
theorem resolve_timespan_no_selector (argFrom argTo : Option Int)
    (now : Int) (fs : List Frame) :
    (∀ x, argFrom = some x →
      (resolve_timespan argFrom argTo now fs).from_ = x) ∧
    (argFrom = none → ∀ f rest, fs = f :: rest →
      (resolve_timespan argFrom argTo now fs).from_ = f.start_time) ∧
    (argFrom = none → fs = [] →
      (resolve_timespan argFrom argTo now fs).from_ = 0) ∧
    (∀ y, argTo = some y → (resolve_timespan argFrom argTo now fs).to_ = y) ∧
    (argTo = none → (resolve_timespan argFrom argTo now fs).to_ = now) := by
  refine ⟨?_, ?_, ?_, ?_, ?_⟩
  · intro x hx
    subst hx
    simp [resolve_timespan, Option.orElse]
  · intro hn f rest hfs
    subst hn
    subst hfs
    simp [resolve_timespan, Option.orElse]
  · intro hn hfs
    subst hn
    subst hfs
    simp [resolve_timespan, Option.orElse]
  · intro y hy
    subst hy
    simp [resolve_timespan]
  · intro hn
    subst hn
    simp [resolve_timespan]

/-- Witness for C7 (amended): no explicit bounds, `now = 77`, one frame
starting at 9. -/
theorem resolve_timespan_no_selector_witness :
    (∀ x, (none : Option Int) = some x →
      (resolve_timespan none none 77
        [({ start_time := 9, end_time := 10, project := "p", tags := [],
            updated_at := 0 } : Frame)]).from_ = x) ∧
    ((none : Option Int) = none → ∀ f rest,
      [({ start_time := 9, end_time := 10, project := "p", tags := [],
          updated_at := 0 } : Frame)] = f :: rest →
      (resolve_timespan none none 77
        [({ start_time := 9, end_time := 10, project := "p", tags := [],
            updated_at := 0 } : Frame)]).from_ = f.start_time) ∧
    ((none : Option Int) = none →
      [({ start_time := 9, end_time := 10, project := "p", tags := [],
          updated_at := 0 } : Frame)] = [] →
      (resolve_timespan none none 77
        [({ start_time := 9, end_time := 10, project := "p", tags := [],
            updated_at := 0 } : Frame)]).from_ = 0) ∧
    (∀ y, (none : Option Int) = some y →
      (resolve_timespan none none 77
        [({ start_time := 9, end_time := 10, project := "p", tags := [],
            updated_at := 0 } : Frame)]).to_ = y) ∧
    ((none : Option Int) = none →
      (resolve_timespan none none 77
        [({ start_time := 9, end_time := 10, project := "p", tags := [],
            updated_at := 0 } : Frame)]).to_ = 77) :=
  resolve_timespan_no_selector none none 77 _

/-! ## C8: the allowance lookup -/

theorem maxByFromYear_ne_none (x : Int × Int) (xs : List (Int × Int)) :
    maxByFromYear (x :: xs) ≠ none := by
  cases hm : maxByFromYear xs <;> simp [maxByFromYear, hm]
  split_ifs <;> simp

theorem maxByFromYear_eq_some {l : List (Int × Int)} {e : Int × Int}
    (h : maxByFromYear l = some e) : e ∈ l ∧ ∀ x ∈ l, x.1 ≤ e.1 := by
  induction l generalizing e with
  | nil => exact absurd h (by simp [maxByFromYear])
  | cons x xs ih =>
    cases hm : maxByFromYear xs with
    | none =>
      have hxs : xs = [] := by
        cases xs with
        | nil => rfl
        | cons y ys => exact absurd hm (maxByFromYear_ne_none y ys)
      subst hxs
      simp only [maxByFromYear] at h
      injection h with h
      subst h
      simp
    | some m =>
      simp only [maxByFromYear, hm] at h
      obtain ⟨hmem, hmax⟩ := ih hm
      split_ifs at h with hgt
      · injection h with h
        subst h
        refine ⟨List.mem_cons_self _ _, ?_⟩
        intro y hy
        rcases List.mem_cons.mp hy with rfl | hy
        · exact le_refl _
        · exact le_trans (hmax y hy) (le_of_lt hgt)
      · injection h with h
        subst h
        refine ⟨List.mem_cons_of_mem _ hmem, ?_⟩
        intro y hy
        rcases List.mem_cons.mp hy with rfl | hy
        · omega
        · exact hmax y hy

/-- C8: for every allowance table and target year, the applicable
allowance is the value stored at the largest key `≤ year`, and 0 if no
key is `≤ year`; in particular, for table `{2000: 30}` year 2024 gives
30, and for table `{2000: 30, 2010: 25}` year 2024 gives 25 and year
2005 gives 30. -/
theorem find_allowed_for_year_spec (map : List (Int × Int)) (year : Int) :
    ((∃ e ∈ map, e.1 ≤ year) →
      ∃ e ∈ map, e.1 ≤ year ∧ find_allowed_for_year map year = e.2 ∧
        ∀ e2 ∈ map, e2.1 ≤ year → e2.1 ≤ e.1) ∧
    ((∀ e ∈ map, year < e.1) → find_allowed_for_year map year = 0) ∧
    find_allowed_for_year [(2000, 30)] 2024 = 30 ∧
    find_allowed_for_year [(2000, 30), (2010, 25)] 2024 = 25 ∧
    find_allowed_for_year [(2000, 30), (2010, 25)] 2005 = 30 := by
  refine ⟨?_, ?_, by decide, by decide, by decide⟩
  · rintro ⟨e0, he0, hle⟩
    have he0f : e0 ∈ map.filter (fun e => decide (e.1 ≤ year)) :=
      List.mem_filter.mpr ⟨he0, by simpa using hle⟩
    cases hm : maxByFromYear (map.filter fun e => decide (e.1 ≤ year)) with
    | none =>
      cases hf : map.filter (fun e => decide (e.1 ≤ year)) with
      | nil =>
        rw [hf] at he0f
        exact absurd he0f (List.not_mem_nil e0)
      | cons y ys =>
        rw [hf] at hm
        exact absurd hm (maxByFromYear_ne_none y ys)
    | some e =>
      obtain ⟨hmem, hmax⟩ := maxByFromYear_eq_some hm
      have hmem' := List.mem_filter.mp hmem
      refine ⟨e, hmem'.1, by simpa using hmem'.2, ?_, ?_⟩
      · simp [find_allowed_for_year, hm]
      · intro e2 he2 hle2
        exact hmax e2 (List.mem_filter.mpr ⟨he2, by simpa using hle2⟩)
  · intro hall
    have hf : map.filter (fun e => decide (e.1 ≤ year)) = [] := by
      rw [List.filter_eq_nil_iff]
      intro e he
      simpa using not_le.mpr (hall e he)
    simp [find_allowed_for_year, hf, maxByFromYear]

/-- Witness for C8 at the table `{2000: 30, 2010: 25}` and year 2024. -/
theorem find_allowed_for_year_spec_witness :
    (∃ e ∈ [((2000 : Int), (30 : Int)), (2010, 25)], e.1 ≤ 2024) ∧
    ∃ e ∈ [((2000 : Int), (30 : Int)), (2010, 25)], e.1 ≤ 2024 ∧
      find_allowed_for_year [(2000, 30), (2010, 25)] 2024 = e.2 ∧
      ∀ e2 ∈ [((2000 : Int), (30 : Int)), (2010, 25)],
        e2.1 ≤ 2024 → e2.1 ≤ e.1 :=
  ⟨⟨(2000, 30), by decide⟩,
    (find_allowed_for_year_spec [(2000, 30), (2010, 25)] 2024).1
      ⟨(2000, 30), by decide⟩⟩

/-! ## C9: days taken and remaining -/

/-- C9: for every set of day-off entries and target year, `taken` equals
the sum of portion weights (Full = 1.0, Half = 0.5) over exactly the
entries whose date's year equals the target year; `remaining` equals
`allowed - taken`, is negative when taken exceeds allowed (not clamped),
and an exactly-zero remaining is normalized to (the unique, in ℚ) zero. -/
theorem days_off_taken_remaining_spec (cal : Calendar) (year : Int)
    (allowed : Int) :
    days_off_taken cal year =
      ((cal.filter fun e => decide (yearOfDay e.1 = year)).map
        fun e => portionWeight e.2.portion).sum ∧
    days_off_remaining allowed (days_off_taken cal year) =
      (allowed : ℚ) - days_off_taken cal year ∧
    ((allowed : ℚ) < days_off_taken cal year →
      days_off_remaining allowed (days_off_taken cal year) < 0) ∧
    days_off_remaining allowed ((allowed : Int) : ℚ) = 0 := by
  have hrem : ∀ t : ℚ, days_off_remaining allowed t = (allowed : ℚ) - t := by
    intro t
    simp only [days_off_remaining, normalize_zero]
    split_ifs with h
    · exact h.symm
    · rfl
  refine ⟨?_, hrem _, ?_, ?_⟩
  · rw [days_off_taken, count_days, filter_by_year, List.map_map]
    rfl
  · intro h
    rw [hrem]
    exact sub_neg.mpr h
  · rw [hrem]
    exact sub_self _

/-- Witness for C9: two day-off entries in 2024 (one Full, one Half,
taken = 1.5) against an allowance of 1 yield a negative remaining. -/
theorem days_off_taken_remaining_spec_witness :
    (1 : ℚ) <
      days_off_taken
        [(19723, { description := "a", portion := DayPortion.Full }),
         (19724, { description := "b", portion := DayPortion.Half })] 2024 ∧
    days_off_remaining 1
      (days_off_taken
        [(19723, { description := "a", portion := DayPortion.Full }),
         (19724, { description := "b", portion := DayPortion.Half })] 2024)
      < 0 :=
  have htaken : (1 : ℚ) <
      days_off_taken
        [(19723, { description := "a", portion := DayPortion.Full }),
         (19724, { description := "b", portion := DayPortion.Half })]
        2024 := by
    have hy1 : yearOfDay 19723 = 2024 := by decide
    have hy2 : yearOfDay 19724 = 2024 := by decide
    norm_num [days_off_taken, filter_by_year, count_days, portionWeight,
      hy1, hy2]
  ⟨htaken,
    (days_off_taken_remaining_spec
      [(19723, { description := "a", portion := DayPortion.Full }),
       (19724, { description := "b", portion := DayPortion.Half })]
      2024 1).2.2.1 htaken⟩

/-! ## C3: the expected-duration formula on empty calendars -/

theorem list_range_map_sum (g : Nat → Nat) (k : Nat) :
    ((List.range k).map g).sum = ∑ i ∈ Finset.range k, g i := by
  induction k with
  | zero => rfl
  | succ k ih =>
    rw [List.range_succ, List.map_append, List.sum_append,
      Finset.sum_range_succ, ih]
    simp

theorem timestamp_to_local_date_mono {x y : Int} (h : x ≤ y) :
    timestamp_to_local_date x ≤ timestamp_to_local_date y := by
  rw [timestamp_to_local_date, timestamp_to_local_date,
    Int.fdiv_eq_ediv _ (by norm_num), Int.fdiv_eq_ediv _ (by norm_num)]
  exact Int.ediv_le_ediv (by norm_num) h

/-- The ascending loop of `calculate_remaining_days_hours` sums exactly
the template durations of the `remaining_days` dates counted downward
from `end_date`. -/
theorem calculate_remaining_days_hours_eq (n : Int) (endD : Int)
    (wh : WorkingHours) :
    calculate_remaining_days_hours n endD wh =
      ∑ i ∈ Finset.range n.toNat, get_hours_for_day (endD - i) wh := by
  simp only [calculate_remaining_days_hours]
  split_ifs with h
  · rw [h]
    simp
  · rw [list_range_map_sum]
    conv_rhs => rw [← Finset.sum_range_reflect]
    refine Finset.sum_congr rfl fun j hj => ?_
    have hj' := Finset.mem_range.mp hj
    congr 1
    omega

theorem get_hours_for_day_fromSecs (d : Int) (mo tu we th fr sa su : Nat) :
    get_hours_for_day d
      { monday := fromSecs mo, tuesday := fromSecs tu,
        wednesday := fromSecs we, thursday := fromSecs th,
        friday := fromSecs fr, saturday := fromSecs sa,
        sunday := fromSecs su } =
      get_hours_for_day d
        { monday := mo, tuesday := tu, wednesday := we, thursday := th,
          friday := fr, saturday := sa, sunday := su } * NANOS := by
  simp only [get_hours_for_day]
  split_ifs <;> rfl

/-- C3: for every period with `from ≤ to` and empty day-off calendars,
`expected_duration` returns
`fullWeeks × (sum of the weekly template over all 7 weekdays) +
(sum of the template's per-weekday durations over the last remainderDays
calendar dates ending at endDate)`, where
`daysDiff = (endDate − startDate) + 1` (the local dates of both `from`
and `to` each count as a whole day), `fullWeeks = daysDiff / 7`
(truncating division) and `remainderDays = daysDiff % 7`.  The template
is given in whole seconds (`fromSecs`); `fullWeeks < 2^32` keeps the
source's `as u32` cast the identity (every chrono-representable date
range satisfies it). -/
theorem expected_duration_formula (mo tu we th fr sa su : Nat)
    (ts : Timespan) (h1 : ts.from_ ≤ ts.to_)
    (h2 : (timestamp_to_local_date ts.to_ - timestamp_to_local_date ts.from_
      + 1).tdiv 7 < 2 ^ 32) :
    expected_duration
      { vacation_days_per_year := [], sick_days_per_year := [],
        working_hours :=
          { monday := fromSecs mo, tuesday := fromSecs tu,
            wednesday := fromSecs we, thursday := fromSecs th,
            friday := fromSecs fr, saturday := fromSecs sa,
            sunday := fromSecs su } } ts [] [] [] =
      ((timestamp_to_local_date ts.to_ - timestamp_to_local_date ts.from_
          + 1).tdiv 7).toNat * (mo + tu + we + th + fr + sa + su) +
        ∑ i ∈ Finset.range
            ((timestamp_to_local_date ts.to_ -
              timestamp_to_local_date ts.from_ + 1).tmod 7).toNat,
          get_hours_for_day (timestamp_to_local_date ts.to_ - i)
            { monday := mo, tuesday := tu, wednesday := we, thursday := th,
              friday := fr, saturday := sa, sunday := su } := by
  have hdates : timestamp_to_local_date ts.from_ ≤
      timestamp_to_local_date ts.to_ := timestamp_to_local_date_mono h1
  have hstep : expected_duration
      { vacation_days_per_year := [], sick_days_per_year := [],
        working_hours :=
          { monday := fromSecs mo, tuesday := fromSecs tu,
            wednesday := fromSecs we, thursday := fromSecs th,
            friday := fromSecs fr, saturday := fromSecs sa,
            sunday := fromSecs su } } ts [] [] [] =
      as_secs
        (WorkingHours.total_weekly_duration
          { monday := fromSecs mo, tuesday := fromSecs tu,
            wednesday := fromSecs we, thursday := fromSecs th,
            friday := fromSecs fr, saturday := fromSecs sa,
            sunday := fromSecs su } *
          (((timestamp_to_local_date ts.to_ -
              timestamp_to_local_date ts.from_ + 1).tdiv 7).emod
            (2 ^ 32)).toNat +
        calculate_remaining_days_hours
          ((timestamp_to_local_date ts.to_ -
            timestamp_to_local_date ts.from_ + 1).tmod 7)
          (timestamp_to_local_date ts.to_)
          { monday := fromSecs mo, tuesday := fromSecs tu,
            wednesday := fromSecs we, thursday := fromSecs th,
            friday := fromSecs fr, saturday := fromSecs sa,
            sunday := fromSecs su }) := rfl
  rw [hstep]
  have hweek : WorkingHours.total_weekly_duration
      { monday := fromSecs mo, tuesday := fromSecs tu,
        wednesday := fromSecs we, thursday := fromSecs th,
        friday := fromSecs fr, saturday := fromSecs sa,
        sunday := fromSecs su } =
      (mo + tu + we + th + fr + sa + su) * NANOS := by
    simp only [WorkingHours.total_weekly_duration, fromSecs]
    ring
  have hfw : ((timestamp_to_local_date ts.to_ -
      timestamp_to_local_date ts.from_ + 1).tdiv 7).emod (2 ^ 32) =
      (timestamp_to_local_date ts.to_ -
        timestamp_to_local_date ts.from_ + 1).tdiv 7 :=
    Int.emod_eq_of_lt (Int.tdiv_nonneg (by omega) (by norm_num)) h2
  have hrem : calculate_remaining_days_hours
      ((timestamp_to_local_date ts.to_ -
        timestamp_to_local_date ts.from_ + 1).tmod 7)
      (timestamp_to_local_date ts.to_)
      { monday := fromSecs mo, tuesday := fromSecs tu,
        wednesday := fromSecs we, thursday := fromSecs th,
        friday := fromSecs fr, saturday := fromSecs sa,
        sunday := fromSecs su } =
      (∑ i ∈ Finset.range
          ((timestamp_to_local_date ts.to_ -
            timestamp_to_local_date ts.from_ + 1).tmod 7).toNat,
        get_hours_for_day (timestamp_to_local_date ts.to_ - i)
          { monday := mo, tuesday := tu, wednesday := we, thursday := th,
            friday := fr, saturday := sa, sunday := su }) * NANOS := by
    rw [calculate_remaining_days_hours_eq, Finset.sum_mul]
    exact Finset.sum_congr rfl fun i _ =>
      get_hours_for_day_fromSecs (timestamp_to_local_date ts.to_ - i)
        mo tu we th fr sa su
  rw [hweek, hfw, hrem, as_secs]
  rw [show (mo + tu + we + th + fr + sa + su) * NANOS *
        ((timestamp_to_local_date ts.to_ -
          timestamp_to_local_date ts.from_ + 1).tdiv 7).toNat +
      (∑ i ∈ Finset.range
          ((timestamp_to_local_date ts.to_ -
            timestamp_to_local_date ts.from_ + 1).tmod 7).toNat,
        get_hours_for_day (timestamp_to_local_date ts.to_ - i)
          { monday := mo, tuesday := tu, wednesday := we, thursday := th,
            friday := fr, saturday := sa, sunday := su }) * NANOS =
      (((timestamp_to_local_date ts.to_ -
          timestamp_to_local_date ts.from_ + 1).tdiv 7).toNat *
        (mo + tu + we + th + fr + sa + su) +
       ∑ i ∈ Finset.range
          ((timestamp_to_local_date ts.to_ -
            timestamp_to_local_date ts.from_ + 1).tmod 7).toNat,
        get_hours_for_day (timestamp_to_local_date ts.to_ - i)
          { monday := mo, tuesday := tu, wednesday := we, thursday := th,
            friday := fr, saturday := sa, sunday := su }) * NANOS
    from by ring]
  exact Nat.mul_div_cancel _ (by norm_num [NANOS])

/-- Witness for C3: the two-week span Mon 2024-01-01 .. Sun 2024-01-14
with the spec §8 template (Mon = 8h, Tue = 6h, rest 0). -/
theorem expected_duration_formula_witness :
    ((19723 * 86400 : Int) ≤ 19736 * 86400 ∧
      (timestamp_to_local_date (19736 * 86400) -
        timestamp_to_local_date (19723 * 86400) + 1).tdiv 7 < 2 ^ 32) ∧
    expected_duration
      { vacation_days_per_year := [], sick_days_per_year := [],
        working_hours :=
          { monday := fromSecs 28800, tuesday := fromSecs 21600,
            wednesday := fromSecs 0, thursday := fromSecs 0,
            friday := fromSecs 0, saturday := fromSecs 0,
            sunday := fromSecs 0 } }
      { from_ := 19723 * 86400, to_ := 19736 * 86400 } [] [] [] =
      ((timestamp_to_local_date (19736 * 86400) -
          timestamp_to_local_date (19723 * 86400) + 1).tdiv 7).toNat *
        (28800 + 21600 + 0 + 0 + 0 + 0 + 0) +
        ∑ i ∈ Finset.range
            ((timestamp_to_local_date (19736 * 86400) -
              timestamp_to_local_date (19723 * 86400) + 1).tmod 7).toNat,
          get_hours_for_day (timestamp_to_local_date (19736 * 86400) - i)
            { monday := 28800, tuesday := 21600, wednesday := 0,
              thursday := 0, friday := 0, saturday := 0, sunday := 0 } :=
  ⟨⟨by decide, by decide⟩,
    expected_duration_formula 28800 21600 0 0 0 0 0
      { from_ := 19723 * 86400, to_ := 19736 * 86400 }
      (by decide) (by decide)⟩

/-! ## C4: merging day-off calendars and subtracting them -/

theorem lookupDate_eq_none_of_forall_lt (l : List (Int × DayPortion))
    (d : Int) (h : ∀ e ∈ l, d < e.1) : lookupDate l d = none := by
  induction l with
  | nil => rfl
  | cons e rest ih =>
    have hd : d ≠ e.1 := ne_of_lt (h e (List.mem_cons_self e rest))
    simp only [lookupDate]
    rw [if_neg hd]
    exact ih fun e2 he2 => h e2 (List.mem_cons_of_mem e he2)

theorem calendarPortion_eq_none_of_forall_lt (l : Calendar) (d : Int)
    (h : ∀ e ∈ l, d < e.1) : calendarPortion l d = none := by
  induction l with
  | nil => rfl
  | cons e rest ih =>
    have hd : d ≠ e.1 := ne_of_lt (h e (List.mem_cons_self e rest))
    simp only [calendarPortion]
    rw [if_neg hd]
    exact ih fun e2 he2 => h e2 (List.mem_cons_of_mem e he2)

theorem insert_or_upgrade_portion_mem_keys
    (l : List (Int × DayPortion)) (d : Int) (p : DayPortion) :
    ∀ e ∈ insert_or_upgrade_portion l d p,
      e.1 = d ∨ ∃ e2 ∈ l, e.1 = e2.1 := by
  induction l with
  | nil =>
    intro e he
    simp only [insert_or_upgrade_portion] at he
    rcases List.mem_singleton.mp he with rfl
    exact Or.inl rfl
  | cons f rest ih =>
    obtain ⟨d', q⟩ := f
    intro e he
    simp only [insert_or_upgrade_portion] at he
    split_ifs at he with h1 h2
    · rcases List.mem_cons.mp he with rfl | he2
      · exact Or.inl rfl
      · exact Or.inr ⟨e, he2, rfl⟩
    · rcases List.mem_cons.mp he with rfl | he2
      · exact Or.inr ⟨(d', q), List.mem_cons_self (d', q) rest, rfl⟩
      · exact Or.inr ⟨e, List.mem_cons_of_mem (d', q) he2, rfl⟩
    · rcases List.mem_cons.mp he with rfl | he2
      · exact Or.inr ⟨(d', q), List.mem_cons_self (d', q) rest, rfl⟩
      · rcases ih e he2 with h | ⟨e2, he3, h⟩
        · exact Or.inl h
        · exact Or.inr ⟨e2, List.mem_cons_of_mem (d', q) he3, h⟩

theorem keysSorted_insert_or_upgrade_portion
    (l : List (Int × DayPortion)) (hl : keysSorted l) (d : Int)
    (p : DayPortion) : keysSorted (insert_or_upgrade_portion l d p) := by
  induction l with
  | nil =>
    simp [insert_or_upgrade_portion, keysSorted]
  | cons f rest ih =>
    rw [keysSorted, List.pairwise_cons] at hl
    obtain ⟨hl1, hl2⟩ := hl
    simp only [insert_or_upgrade_portion]
    split_ifs with h1 h2
    · rw [keysSorted, List.pairwise_cons]
      refine ⟨?_, ?_⟩
      · intro e he
        rcases List.mem_cons.mp he with rfl | he2
        · exact h1
        · exact lt_trans h1 (hl1 e he2)
      · rw [List.pairwise_cons]
        exact ⟨hl1, hl2⟩
    · rw [keysSorted, List.pairwise_cons]
      exact ⟨hl1, hl2⟩
    · rw [keysSorted, List.pairwise_cons]
      refine ⟨?_, ih hl2⟩
      intro e he
      rcases insert_or_upgrade_portion_mem_keys rest d p e he with h | ⟨e2, he2, h⟩
      · rw [h]
        omega
      · rw [h]
        exact hl1 e2 he2

theorem lookupDate_insert_or_upgrade (l : List (Int × DayPortion))
    (hl : keysSorted l) (d : Int) (p : DayPortion) (x : Int) :
    lookupDate (insert_or_upgrade_portion l d p) x =
      if x = d then
        some (match lookupDate l d with
          | some q => upgradePortion q p
          | none => p)
      else lookupDate l x := by
  induction l with
  | nil =>
    by_cases hx : x = d <;> simp [insert_or_upgrade_portion, lookupDate, hx]
  | cons f rest ih =>
    obtain ⟨d', q⟩ := f
    rw [keysSorted, List.pairwise_cons] at hl
    obtain ⟨hl1, hl2⟩ := hl
    simp only [insert_or_upgrade_portion]
    rcases lt_trichotomy d d' with h1 | h1 | h1
    · rw [if_pos h1]
      have hnone : lookupDate ((d', q) :: rest) d = none := by
        apply lookupDate_eq_none_of_forall_lt
        intro e he
        rcases List.mem_cons.mp he with rfl | he2
        · exact h1
        · exact lt_trans h1 (hl1 e he2)
      rw [hnone]
      by_cases hx : x = d
      · subst hx
        simp [lookupDate]
      · simp [lookupDate, hx]
    · rw [if_neg (by omega), if_pos h1]
      subst h1
      by_cases hx : x = d
      · subst hx
        simp [lookupDate]
      · simp [lookupDate, hx]
    · rw [if_neg (by omega), if_neg (by omega)]
      by_cases hx : x = d
      · subst hx
        have hxd' : x ≠ d' := by omega
        simp only [lookupDate, if_neg hxd']
        rw [ih hl2]
        simp
      · by_cases hx' : x = d'
        · subst hx'
          simp [lookupDate, hx]
        · simp only [lookupDate, if_neg hx']
          rw [ih hl2, if_neg hx, if_neg hx]

theorem keysSorted_foldl_insert (cal : Calendar)
    (acc : List (Int × DayPortion)) (hacc : keysSorted acc) :
    keysSorted (cal.foldl
      (fun m e => insert_or_upgrade_portion m e.1 e.2.portion) acc) := by
  induction cal generalizing acc with
  | nil => exact hacc
  | cons e rest ih =>
    rw [List.foldl_cons]
    exact ih _ (keysSorted_insert_or_upgrade_portion acc hacc e.1 e.2.portion)

theorem lookupDate_foldl_insert (x : Int) (cal : Calendar) :
    ∀ (acc : List (Int × DayPortion)), keysSorted acc → keysSorted cal →
    lookupDate (cal.foldl
      (fun m e => insert_or_upgrade_portion m e.1 e.2.portion) acc) x =
      omaxPortion (lookupDate acc x) (calendarPortion cal x) := by
  induction cal with
  | nil =>
    intro acc hacc hcal
    rw [List.foldl_nil]
    cases h : lookupDate acc x <;> rfl
  | cons e rest ih =>
    intro acc hacc hcal
    rw [keysSorted, List.pairwise_cons] at hcal
    obtain ⟨hc1, hc2⟩ := hcal
    rw [List.foldl_cons,
      ih (insert_or_upgrade_portion acc e.1 e.2.portion)
        (keysSorted_insert_or_upgrade_portion acc hacc e.1 e.2.portion) hc2,
      lookupDate_insert_or_upgrade acc hacc e.1 e.2.portion x]
    by_cases hx : x = e.1
    · rw [if_pos hx]
      have hrest : calendarPortion rest x = none :=
        calendarPortion_eq_none_of_forall_lt rest x fun e2 he2 => by
          rw [hx]
          exact hc1 e2 he2
      rw [hrest]
      simp only [calendarPortion, if_pos hx]
      rw [← hx]
      cases hacc' : lookupDate acc x <;> rfl
    · rw [if_neg hx]
      simp only [calendarPortion, if_neg hx]

theorem calendarPortion_calendarRange (cal : Calendar) (a b x : Int) :
    calendarPortion (calendarRange cal a b) x =
      if a ≤ x ∧ x ≤ b then calendarPortion cal x else none := by
  induction cal with
  | nil =>
    simp only [calendarRange, List.filter_nil, calendarPortion]
    split_ifs <;> rfl
  | cons e rest ih =>
    rw [calendarRange, List.filter_cons]
    by_cases he : a ≤ e.1 ∧ e.1 ≤ b
    · rw [if_pos (by simpa using he)]
      by_cases hx : x = e.1
      · subst hx
        simp [calendarPortion, he]
      · simp only [calendarPortion, if_neg hx]
        rw [← calendarRange, ih]
    · rw [if_neg (by simpa using he)]
      rw [← calendarRange, ih]
      by_cases hx : x = e.1
      · subst hx
        simp [he]
      · simp [calendarPortion, hx]

theorem keysSorted_calendarRange (cal : Calendar) (a b : Int)
    (h : keysSorted cal) : keysSorted (calendarRange cal a b) :=
  List.Pairwise.filter _ h

/-- `subtract_day_offs` subtracts each merged entry exactly once and
clamps at zero: the sequential clamped subtraction equals one truncated
(`Nat`) subtraction of the sum of the per-date subtrahends. -/
theorem subtract_day_offs_eq (duration : Nat)
    (day_offs : List (Int × DayPortion)) (config : Config) :
    subtract_day_offs duration day_offs config =
      duration - (day_offs.map (day_off_subtrahend config.working_hours)).sum := by
  induction day_offs generalizing duration with
  | nil => simp [subtract_day_offs]
  | cons e rest ih =>
    have h1 : subtract_day_offs duration (e :: rest) config =
        subtract_day_offs
          (duration - day_off_subtrahend config.working_hours e) rest config :=
      rfl
    rw [h1, ih, List.map_cons, List.sum_cons, Nat.sub_sub]

theorem omaxPortion_none_left (o : Option DayPortion) :
    omaxPortion none o = o := by
  cases o <;> rfl

/-- C4: for every period with `from ≤ to` and any vacation, holiday and
sick-day calendars (with the `BTreeMap` sorted-keys invariant), (a) the
merged day-off map holds, for each date inside
`[startDate, endDate]`, exactly the maximum-severity portion across the
three calendars at that date (and nothing outside the range), (b) the
upgrade rule is the maximum of the severity order (Full dominates Half),
and (c) the expected duration subtracts each merged date exactly once —
the template duration of its weekday scaled by the portion — with the
running total clamped at zero: the whole subtraction collapses to one
truncated (`Nat`, i.e. clamped-at-zero) subtraction of the sum of the
per-date subtrahends. -/
theorem merge_and_subtract_day_offs (cfg : Config) (ts : Timespan)
    (vacations holidays sick_days : Calendar)
    (hts : ts.from_ ≤ ts.to_)
    (hv : keysSorted vacations) (hh : keysSorted holidays)
    (hs : keysSorted sick_days) :
    (∀ x : Int,
      lookupDate
        (merge_day_offs_in_range vacations holidays sick_days
          (timestamp_to_local_date ts.from_)
          (timestamp_to_local_date ts.to_)) x =
        if timestamp_to_local_date ts.from_ ≤ x ∧
            x ≤ timestamp_to_local_date ts.to_ then
          omaxPortion
            (omaxPortion (calendarPortion vacations x)
              (calendarPortion holidays x))
            (calendarPortion sick_days x)
        else none) ∧
    (∀ q p, portion_order (upgradePortion q p) =
      max (portion_order q) (portion_order p)) ∧
    expected_duration cfg ts holidays sick_days vacations =
      as_secs (expected_base_ns cfg ts -
        ((merge_day_offs_in_range vacations holidays sick_days
          (timestamp_to_local_date ts.from_)
          (timestamp_to_local_date ts.to_)).map
          (day_off_subtrahend cfg.working_hours)).sum) := by
  refine ⟨?_, ?_, ?_⟩
  · intro x
    have h0 : keysSorted ([] : List (Int × DayPortion)) := List.Pairwise.nil
    have hm1 : keysSorted (mergeCalendar [] vacations
        (timestamp_to_local_date ts.from_)
        (timestamp_to_local_date ts.to_)) :=
      keysSorted_foldl_insert _ _ h0
    have hm2 : keysSorted (mergeCalendar (mergeCalendar [] vacations
        (timestamp_to_local_date ts.from_)
        (timestamp_to_local_date ts.to_)) holidays
        (timestamp_to_local_date ts.from_)
        (timestamp_to_local_date ts.to_)) :=
      keysSorted_foldl_insert _ _ hm1
    rw [merge_day_offs_in_range, mergeCalendar,
      lookupDate_foldl_insert x _ _ hm2
        (keysSorted_calendarRange sick_days _ _ hs),
      mergeCalendar,
      lookupDate_foldl_insert x _ _ hm1
        (keysSorted_calendarRange holidays _ _ hh),
      mergeCalendar,
      lookupDate_foldl_insert x _ _ h0
        (keysSorted_calendarRange vacations _ _ hv),
      calendarPortion_calendarRange, calendarPortion_calendarRange,
      calendarPortion_calendarRange]
    by_cases hr : timestamp_to_local_date ts.from_ ≤ x ∧
        x ≤ timestamp_to_local_date ts.to_
    · rw [if_pos hr, if_pos hr, if_pos hr, if_pos hr]
      rw [show lookupDate [] x = none from rfl, omaxPortion_none_left]
    · rw [if_neg hr, if_neg hr, if_neg hr, if_neg hr]
      rfl
  · intro q p
    cases q <;> cases p <;> rfl
  · have hstep : expected_duration cfg ts holidays sick_days vacations =
        as_secs (subtract_day_offs (expected_base_ns cfg ts)
          (merge_day_offs_in_range vacations holidays sick_days
            (timestamp_to_local_date ts.from_)
            (timestamp_to_local_date ts.to_)) cfg) := rfl
    rw [hstep, subtract_day_offs_eq]

/-- Witness for C4: one week Mon 2024-01-01 .. Sun 2024-01-07; a Half
vacation day and a Full holiday on Wed 2024-01-03, a sick day outside
the range. -/
theorem merge_and_subtract_day_offs_witness :
    (((19723 * 86400 : Int) ≤ 19729 * 86400 ∧
      keysSorted [((19725 : Int),
        ({ description := "v", portion := DayPortion.Half } : CalendarEntry))] ∧
      keysSorted [((19725 : Int),
        ({ description := "h", portion := DayPortion.Full } : CalendarEntry))] ∧
      keysSorted [((19730 : Int),
        ({ description := "s", portion := DayPortion.Full } : CalendarEntry))]) ∧
    (∀ x : Int,
      lookupDate
        (merge_day_offs_in_range
          [(19725, { description := "v", portion := DayPortion.Half })]
          [(19725, { description := "h", portion := DayPortion.Full })]
          [(19730, { description := "s", portion := DayPortion.Full })]
          (timestamp_to_local_date (19723 * 86400))
          (timestamp_to_local_date (19729 * 86400))) x =
        if timestamp_to_local_date (19723 * 86400) ≤ x ∧
            x ≤ timestamp_to_local_date (19729 * 86400) then
          omaxPortion
            (omaxPortion
              (calendarPortion
                [(19725, { description := "v", portion := DayPortion.Half })] x)
              (calendarPortion
                [(19725, { description := "h", portion := DayPortion.Full })] x))
            (calendarPortion
              [(19730, { description := "s", portion := DayPortion.Full })] x)
        else none) ∧
    (∀ q p, portion_order (upgradePortion q p) =
      max (portion_order q) (portion_order p)) ∧
    expected_duration
      { vacation_days_per_year := [], sick_days_per_year := [],
        working_hours :=
          { monday := fromSecs 28800, tuesday := fromSecs 21600,
            wednesday := fromSecs 18000, thursday := fromSecs 0,
            friday := fromSecs 0, saturday := fromSecs 0,
            sunday := fromSecs 0 } }
      { from_ := 19723 * 86400, to_ := 19729 * 86400 }
      [(19725, { description := "h", portion := DayPortion.Full })]
      [(19730, { description := "s", portion := DayPortion.Full })]
      [(19725, { description := "v", portion := DayPortion.Half })] =
      as_secs (expected_base_ns
        { vacation_days_per_year := [], sick_days_per_year := [],
          working_hours :=
            { monday := fromSecs 28800, tuesday := fromSecs 21600,
              wednesday := fromSecs 18000, thursday := fromSecs 0,
              friday := fromSecs 0, saturday := fromSecs 0,
              sunday := fromSecs 0 } }
        { from_ := 19723 * 86400, to_ := 19729 * 86400 } -
        ((merge_day_offs_in_range
          [(19725, { description := "v", portion := DayPortion.Half })]
          [(19725, { description := "h", portion := DayPortion.Full })]
          [(19730, { description := "s", portion := DayPortion.Full })]
          (timestamp_to_local_date (19723 * 86400))
          (timestamp_to_local_date (19729 * 86400))).map
          (day_off_subtrahend
            { monday := fromSecs 28800, tuesday := fromSecs 21600,
              wednesday := fromSecs 18000, thursday := fromSecs 0,
              friday := fromSecs 0, saturday := fromSecs 0,
              sunday := fromSecs 0 })).sum)) :=
  ⟨⟨by decide, by decide, by decide, by decide⟩,
    merge_and_subtract_day_offs
      { vacation_days_per_year := [], sick_days_per_year := [],
        working_hours :=
          { monday := fromSecs 28800, tuesday := fromSecs 21600,
            wednesday := fromSecs 18000, thursday := fromSecs 0,
            friday := fromSecs 0, saturday := fromSecs 0,
            sunday := fromSecs 0 } }
      { from_ := 19723 * 86400, to_ := 19729 * 86400 }
      [(19725, { description := "v", portion := DayPortion.Half })]
      [(19725, { description := "h", portion := DayPortion.Full })]
      [(19730, { description := "s", portion := DayPortion.Full })]
      (by decide) (by decide) (by decide) (by decide)⟩

/-! ## C1: aggregation by project and tag -/

theorem sum_map_ite_filter {α : Type} (P : α → Prop) [DecidablePred P]
    (g : α → Int) (l : List α) :
    (l.map fun x => if P x then g x else 0).sum =
      ((l.filter fun x => decide (P x)).map g).sum := by
  induction l with
  | nil => rfl
  | cons x xs ih => by_cases h : P x <;> simp [h, ih]

theorem aggStep_tagFold_apply (tags : List String) (proj : String) (d : Int)
    (m : String → String → Int) (p t : String) :
    (tags.foldl
      (fun m tg => fun p t => if p = proj ∧ t = tg then m p t + d else m p t)
      m) p t =
      m p t + (if p = proj then (tags.count t : Int) * d else 0) := by
  induction tags generalizing m with
  | nil => simp
  | cons x xs ih =>
    rw [List.foldl_cons, ih]
    by_cases hp : p = proj
    · by_cases ht : t = x
      · subst ht
        simp only [hp, and_self, if_true, if_pos, List.count_cons_self]
        push_cast
        ring
      · have : ¬(p = proj ∧ t = x) := by tauto
        rw [if_neg this, List.count_cons_of_ne ht]
    · have : ¬(p = proj ∧ t = x) := by tauto
      rw [if_neg this, if_neg hp, if_neg hp]

theorem aggregate_foldl_spec (fs : List Frame) (acc : Agg) :
    (fs.foldl aggStep acc).total = acc.total + (fs.map frameDuration).sum ∧
    (∀ p, (fs.foldl aggStep acc).projDur p = acc.projDur p +
      ((fs.filter fun f => decide (f.project = p)).map frameDuration).sum) ∧
    (∀ p t, (fs.foldl aggStep acc).tagDur p t = acc.tagDur p t +
      (fs.map fun f =>
        if f.project = p then (f.tags.count t : Int) * frameDuration f
        else 0).sum) := by
  induction fs generalizing acc with
  | nil => simp
  | cons f fs ih =>
    obtain ⟨ih1, ih2, ih3⟩ := ih (aggStep acc f)
    refine ⟨?_, ?_, ?_⟩
    · rw [List.foldl_cons, ih1]
      simp only [aggStep, List.map_cons, List.sum_cons]
      ring
    · intro p
      rw [List.foldl_cons, ih2 p]
      by_cases hp : f.project = p
      · rw [List.filter_cons_of_pos (by simpa using hp)]
        simp only [aggStep, List.map_cons, List.sum_cons]
        rw [if_pos hp.symm]
        ring
      · rw [List.filter_cons_of_neg (by simpa using hp)]
        simp only [aggStep]
        rw [if_neg fun h => hp h.symm]
    · intro p t
      rw [List.foldl_cons, ih3 p t]
      simp only [aggStep, List.map_cons, List.sum_cons]
      rw [aggStep_tagFold_apply]
      by_cases hp : f.project = p
      · rw [if_pos hp.symm, if_pos hp]
        ring
      · rw [if_neg fun h => hp h.symm, if_neg hp]
        ring

theorem total_duration_by_project_foldl_spec (fs : List Frame)
    (acc : (String → Int) × Int) :
    (fs.foldl tdbpStep acc).2 = acc.2 + (fs.map frameDuration).sum ∧
    ∀ p, (fs.foldl tdbpStep acc).1 p = acc.1 p +
      ((fs.filter fun f => decide (f.project = p)).map frameDuration).sum := by
  induction fs generalizing acc with
  | nil => simp
  | cons f fs ih =>
    obtain ⟨ih1, ih2⟩ := ih (tdbpStep acc f)
    refine ⟨?_, ?_⟩
    · rw [List.foldl_cons, ih1]
      simp only [tdbpStep, List.map_cons, List.sum_cons]
      ring
    · intro p
      rw [List.foldl_cons, ih2 p]
      by_cases hp : f.project = p
      · rw [List.filter_cons_of_pos (by simpa using hp)]
        simp only [tdbpStep, List.map_cons, List.sum_cons]
        rw [if_pos hp.symm]
        ring
      · rw [List.filter_cons_of_neg (by simpa using hp)]
        simp only [tdbpStep]
        rw [if_neg fun h => hp h.symm]

/-- C1: for every list of clipped frames (with deduplicated tags, the
data-model invariant), the aggregator returns the grand total of seconds,
a per-project total, and, for each project, a per-tag mapping in which a
frame with N tags contributes its full duration to each of its N tag
buckets; in particular, on the three example frames (project=A,
tags=[x,y], 1h), (project=B, tags=[z], 2h), (project=A, tags=[y], 3h) it
yields total=6h, A=4h, A.tags={x:1h, y:4h}, B=2h, B.tags={z:2h}.  The
grand-total and per-project parts agree with the in-src revision
`total_duration_by_project`. -/
theorem aggregate_spec (fs : List Frame)
    (hnd : ∀ f ∈ fs, f.tags.Nodup) :
    (aggregate fs).total = (fs.map frameDuration).sum ∧
    (∀ p, (aggregate fs).projDur p =
      ((fs.filter fun f => decide (f.project = p)).map frameDuration).sum) ∧
    (∀ p t, (aggregate fs).tagDur p t =
      ((fs.filter fun f => decide (f.project = p ∧ t ∈ f.tags)).map
        frameDuration).sum) ∧
    (total_duration_by_project fs).2 = (aggregate fs).total ∧
    (∀ p, (total_duration_by_project fs).1 p = (aggregate fs).projDur p) ∧
    (aggregate exampleFrames).total = 21600 ∧
    (aggregate exampleFrames).projDur "A" = 14400 ∧
    (aggregate exampleFrames).tagDur "A" "x" = 3600 ∧
    (aggregate exampleFrames).tagDur "A" "y" = 14400 ∧
    (aggregate exampleFrames).projDur "B" = 7200 ∧
    (aggregate exampleFrames).tagDur "B" "z" = 7200 := by
  obtain ⟨h1, h2, h3⟩ := aggregate_foldl_spec fs ⟨0, fun _ => 0, fun _ _ => 0⟩
  obtain ⟨g1, g2⟩ := total_duration_by_project_foldl_spec fs (fun _ => 0, 0)
  refine ⟨by simpa using h1, fun p => by simpa using h2 p, ?_, ?_, ?_,
    by decide, by decide, by decide, by decide, by decide, by decide⟩
  · intro p t
    have := h3 p t
    simp only [aggregate, this, zero_add]
    rw [← sum_map_ite_filter (fun f => f.project = p ∧ t ∈ f.tags)
      frameDuration fs]
    refine congrArg List.sum (List.map_congr_left fun f hf => ?_)
    have hcount : (f.tags.count t : Int) =
        if t ∈ f.tags then 1 else 0 := by
      split_ifs with hm
      · rw [List.count_eq_one_of_mem (hnd f hf) hm]
        rfl
      · rw [List.count_eq_zero_of_not_mem hm]
        rfl
    rw [hcount]
    by_cases hp : f.project = p <;> by_cases hm : t ∈ f.tags <;>
      simp [hp, hm]
  · rw [total_duration_by_project, aggregate]
    rw [g1, h1]
  · intro p
    rw [total_duration_by_project, aggregate, g2 p, h2 p]

/-- Witness for C1 at the three example frames of spec §8. -/
theorem aggregate_spec_witness :
    (∀ f ∈ exampleFrames, f.tags.Nodup) ∧
    ((aggregate exampleFrames).total = (exampleFrames.map frameDuration).sum ∧
      (∀ p, (aggregate exampleFrames).projDur p =
        ((exampleFrames.filter fun f => decide (f.project = p)).map
          frameDuration).sum) ∧
      (∀ p t, (aggregate exampleFrames).tagDur p t =
        ((exampleFrames.filter fun f =>
          decide (f.project = p ∧ t ∈ f.tags)).map frameDuration).sum) ∧
      (total_duration_by_project exampleFrames).2 =
        (aggregate exampleFrames).total ∧
      (∀ p, (total_duration_by_project exampleFrames).1 p =
        (aggregate exampleFrames).projDur p) ∧
      (aggregate exampleFrames).total = 21600 ∧
      (aggregate exampleFrames).projDur "A" = 14400 ∧
      (aggregate exampleFrames).tagDur "A" "x" = 3600 ∧
      (aggregate exampleFrames).tagDur "A" "y" = 14400 ∧
      (aggregate exampleFrames).projDur "B" = 7200 ∧
      (aggregate exampleFrames).tagDur "B" "z" = 7200) :=
  ⟨by decide, aggregate_spec exampleFrames (by decide)⟩

/-! ## C2: periods with `from > to` -/

/-- C2 counterexample: `run_balance` calls `expected_duration`
unconditionally (src/cli/balance.rs lines 80-89), and on the reversed
period `from = 86401 > to = 86400` — both instants on the local date
1970-01-02, a Friday with the default 8-hour template — it returns
28800, not 0. -/
theorem expected_duration_reversed_period_cex :
    (86401 : Int) > 86400 ∧
    expected_duration default_config { from_ := 86401, to_ := 86400 }
      [] [] [] = 28800 ∧
    (28800 : Nat) ≠ 0 := by
  decide

/-- C2 (amended): for every period with `from > to`, the balance
command clears the frame list without filtering (the result set is
empty); `expected_duration` is nevertheless invoked with the reversed
period and need not return 0 — with both instants on the same local
date it returns that date's full template duration, as in the concrete
instance above. -/
theorem reversed_period_empty_frames (ts : Timespan) (frames : List Frame)
    (h : ts.from_ > ts.to_) :
    run_balance_frames ts frames = [] ∧
    expected_duration default_config { from_ := 86401, to_ := 86400 }
      [] [] [] = 28800 := by
  constructor
  · rw [run_balance_frames, if_pos h]
  · decide

/-- Witness for C2 (amended) at the reversed period `[5, 3]`. -/
theorem reversed_period_empty_frames_witness :
    ((5 : Int) > 3) ∧
    (run_balance_frames { from_ := 5, to_ := 3 }
        [{ start_time := 0, end_time := 10, project := "p", tags := [],
           updated_at := 0 }] = [] ∧
      expected_duration default_config { from_ := 86401, to_ := 86400 }
        [] [] [] = 28800) :=
  ⟨by decide,
    reversed_period_empty_frames { from_ := 5, to_ := 3 }
      [{ start_time := 0, end_time := 10, project := "p", tags := [],
         updated_at := 0 }] (by decide)⟩

end Ebb
